import Mathlib

set_option maxRecDepth 40000

/-!
Verification of the validation and execution layers of the hardened Kali
tools API server.

The repository has two subprocess runners:
* `kali_server.py` defines `CommandExecutor` taking an argument vector,
  launched with `subprocess.Popen(argv, ...)` (no shell), post-truncating
  output and killing immediately on timeout;
* `models/executor.py` defines a second `CommandExecutor` taking a command
  string, launched with `subprocess.Popen(command, shell=True, ...)`,
  draining streams in reader threads with no output ceiling, and on timeout
  terminating gracefully, waiting 5 seconds, then killing.

The definitions below are shallow embeddings of the Python source:
validators are translated function by function (Python regexes become
explicit character-class matchers mirroring `re.match`'s semantics,
including `$` also matching just before one trailing newline), `shlex.split`
(posix mode) becomes an explicit state machine, and each executor becomes a
function of the spawned process's behaviour.  Captured stream contents are
modelled as byte lists; `str.encode`/`decode(errors="ignore")` round-trips
are modelled as the identity on those byte lists (exact for ASCII output).
-/

/-- Bytes of an ASCII string literal (used for the fixed marker and message
strings the server builds). -/
def strBytes (s : String) : List Nat := s.data.map Char.toNat

/-! ## shlex.split (posix=True, whitespace_split=True)

State machine translated from CPython's `shlex.read_token` restricted to the
configuration `shlex.split` uses: whitespace `' '`, `'\t'`, `'\r'`, `'\n'`;
quote characters `'` and `"`; escape character `\`; inside double quotes a
backslash escapes only `\` and `"` (otherwise the backslash is kept).
Unbalanced quotes raise "No closing quotation"; a trailing escape raises
"No escaped character". -/

inductive SState
  | normal
  | escaped
  | squote
  | dquote
  | dqescaped
deriving DecidableEq

def isShWhitespace (c : Char) : Bool :=
  c = ' ' || c = '\t' || c = '\r' || c = '\n'

/-- Emit the current token at a word boundary: posix shlex appends the token
when it is nonempty, or when a quote made an (possibly empty) token. -/
def shlexEmit (cur : List Char) (flag : Bool) (acc : List String) : List String :=
  if cur ≠ [] ∨ flag = true then acc ++ [String.mk cur] else acc

def shlexRun : List Char → SState → List Char → Bool → List String →
    Except String (List String)
  | [], .normal, cur, flag, acc => .ok (shlexEmit cur flag acc)
  | [], .escaped, _, _, _ => .error "No escaped character"
  | [], .dqescaped, _, _, _ => .error "No escaped character"
  | [], .squote, _, _, _ => .error "No closing quotation"
  | [], .dquote, _, _, _ => .error "No closing quotation"
  | c :: rest, .normal, cur, flag, acc =>
      if isShWhitespace c then
        shlexRun rest .normal [] false (shlexEmit cur flag acc)
      else if c = '\\' then shlexRun rest .escaped cur flag acc
      else if c = '\'' then shlexRun rest .squote cur true acc
      else if c = '"' then shlexRun rest .dquote cur true acc
      else shlexRun rest .normal (cur ++ [c]) flag acc
  | c :: rest, .escaped, cur, flag, acc =>
      shlexRun rest .normal (cur ++ [c]) flag acc
  | c :: rest, .squote, cur, flag, acc =>
      if c = '\'' then shlexRun rest .normal cur flag acc
      else shlexRun rest .squote (cur ++ [c]) flag acc
  | c :: rest, .dquote, cur, flag, acc =>
      if c = '"' then shlexRun rest .normal cur flag acc
      else if c = '\\' then shlexRun rest .dqescaped cur flag acc
      else shlexRun rest .dquote (cur ++ [c]) flag acc
  | c :: rest, .dqescaped, cur, flag, acc =>
      shlexRun rest .dquote
        (cur ++ (if c = '"' ∨ c = '\\' then [c] else ['\\', c])) flag acc

/-- `shlex.split(s, posix=True)`. -/
def shlexSplit (s : String) : Except String (List String) :=
  shlexRun s.data .normal [] false []

/-! ## The additional-args flag grammar

`SAFE_ADDITIONAL_ARG_PATTERN = re.compile(r"^[-]{1,2}[\w][\w\-]*(=[\w./:@%+,[\]-]+)?$")`
with `.match`.  `\w` is modelled as the ASCII word characters (Python's
`\w` additionally matches non-ASCII word characters; no claim distinguishes
those).  Python's `$` also matches just before a single trailing newline, so
the matcher accepts an optional trailing `'\n'` after the flag body. -/

def isWordChar (c : Char) : Bool := c.isAlphanum || c = '_'

/-- Character class of the `=value` part: `[\w./:@%+,[\]-]`. -/
def isFlagValueChar (c : Char) : Bool :=
  isWordChar c || c = '.' || c = '/' || c = ':' || c = '@' || c = '%' ||
    c = '+' || c = ',' || c = '[' || c = ']' || c = '-'

/-- Matches `[\w\-]*(=[\w./:@%+,[\]-]+)?` (the flag body after its first
word character). -/
def matchTail : List Char → Bool
  | [] => true
  | c :: rest =>
      if c = '=' then decide (rest ≠ []) && rest.all isFlagValueChar
      else (isWordChar c || c = '-') && matchTail rest

/-- Matches `[\w][\w\-]*(=...)?` (a first word character, then the tail). -/
def matchFlagBody : List Char → Bool
  | [] => false
  | c :: rest => isWordChar c && matchTail rest

/-- Matches `[-]{1,2}[\w][\w\-]*(=...)?` against the whole character list:
one dash, optionally a second, then the body (the repetition is greedy, and
since `-` is not a word character no backtracking case arises). -/
def matchFlagCore : List Char → Bool
  | c :: c2 :: rest =>
      if c = '-' then
        (if c2 = '-' then matchFlagBody rest else matchFlagBody (c2 :: rest))
      else false
  | _ => false

/-- `SAFE_ADDITIONAL_ARG_PATTERN.match(part)` succeeds: the anchored pattern
matches the whole string or the whole string minus one trailing newline
(Python `$`). -/
def matchSafeFlag (cs : List Char) : Bool :=
  matchFlagCore cs ||
    (cs.getLast? = some '\n' && matchFlagCore cs.dropLast)

/-- The shell metacharacters rejected in non-flag tokens:
`re.search(r"[;&|`$><(){}]", part)` (backtick written as `'\x60'`, braces as
`'\x7b'`/`'\x7d'`). -/
def tokenBadChars : List Char :=
  [';', '&', '|', '\x60', '$', '>', '<', '(', ')', '\x7b', '\x7d']

/-- `part.startswith("-")`. -/
def startsWithDash (t : String) : Bool :=
  match t.data with
  | '-' :: _ => true
  | _ => false

/-- The per-token acceptance rule of `parse_additional_args`. -/
def checkToken (t : String) : Bool :=
  if startsWithDash t then matchSafeFlag t.data
  else !(t.data.any fun c => tokenBadChars.contains c)

def parsePartsGo : List String → Except String (List String)
  | [] => .ok []
  | t :: rest =>
      if startsWithDash t then
        if matchSafeFlag t.data then (parsePartsGo rest).map (fun l => t :: l)
        else .error ("Unsafe flag detected: " ++ t)
      else if t.data.any (fun c => tokenBadChars.contains c) then
        .error ("Unsafe argument token: " ++ t)
      else (parsePartsGo rest).map (fun l => t :: l)

/-- `parse_additional_args` of `kali_server.py`. -/
def parse_additional_args (raw : String) : Except String (List String) :=
  if raw = "" then .ok []
  else
    match shlexSplit raw with
    | .error e => .error ("Unable to parse additional_args: " ++ e)
    | .ok parts => parsePartsGo parts

/-- Acceptance, as a Bool, of an Except-valued validator. -/
def resultOk {α : Type} : Except String α → Bool
  | .ok _ => true
  | .error _ => false

/-- The seven metacharacters the claim names. -/
def sevenMetachars : List Char := [';', '&', '|', '\x60', '$', '>', '<']

/-- A character shlex treats as ordinary: not whitespace, not the escape
character, not a quote.  Every ordinary character of the input survives
into some output token. -/
def shlexOrdinary (c : Char) : Bool :=
  !isShWhitespace c && decide (c ≠ '\\') && decide (c ≠ '\'') && decide (c ≠ '"')

/-- Characters that can occur in a token accepted by the flag pattern:
dashes, word characters, `=`, the value class, and (via Python's `$`) a
trailing newline. -/
def flagCharOK (c : Char) : Bool :=
  c = '-' || isWordChar c || c = '=' || isFlagValueChar c || c = '\n'


/-! ## IP literals (`ipaddress.ip_address`)

`ip_address(value)` succeeds when `IPv4Address(value)` or `IPv6Address(value)`
does.  Translated from CPython's `ipaddress._ipv4_int_from_string`,
`_parse_octet`, `_ip_int_from_string`, `_parse_hextet` and
`_split_scope_id` (scoped IPv6 addresses, `addr%scope`, are accepted since
Python 3.9: the scope id must be nonempty and contain no `%`). -/

/-- `str.split(sep)` for a single-character separator. -/
def splitOnChar (sep : Char) : List Char → List (List Char)
  | [] => [[]]
  | c :: rest =>
      let r := splitOnChar sep rest
      if c = sep then [] :: r
      else
        match r with
        | [] => [[c]]
        | h :: t => (c :: h) :: t

def digitsVal (cs : List Char) : Nat :=
  cs.foldl (fun a c => 10 * a + (c.toNat - 48)) 0

/-- `_parse_octet`: 1–3 ASCII digits, no leading zero (except "0"),
value ≤ 255. -/
def parseIPv4Octet (cs : List Char) : Option Nat :=
  match cs with
  | [] => none
  | c0 :: rest =>
      if (c0 :: rest).length > 3 then none
      else if !((c0 :: rest).all Char.isDigit) then none
      else if rest ≠ [] ∧ c0 = '0' then none
      else
        let v := digitsVal (c0 :: rest)
        if v ≤ 255 then some v else none

/-- `_ipv4_int_from_string`: exactly four octets joined by dots; the
32-bit value. -/
def parseIPv4Int (cs : List Char) : Option Nat :=
  match splitOnChar '.' cs with
  | [p1, p2, p3, p4] =>
      match parseIPv4Octet p1, parseIPv4Octet p2, parseIPv4Octet p3, parseIPv4Octet p4 with
      | some a, some b, some c, some d => some (((a * 256 + b) * 256 + c) * 256 + d)
      | _, _, _, _ => none
  | _ => none

def is_valid_ipv4 (cs : List Char) : Bool := (parseIPv4Int cs).isSome

def isHexDig (c : Char) : Bool :=
  c.isDigit || ('a' ≤ c && c ≤ 'f') || ('A' ≤ c && c ≤ 'F')

/-- `_parse_hextet`: 1–4 hex digits. -/
def validHextet (cs : List Char) : Bool :=
  decide (cs ≠ []) && decide (cs.length ≤ 4) && cs.all isHexDig

def hexChar (n : Nat) : Char :=
  if n < 10 then Char.ofNat (48 + n) else Char.ofNat (87 + n)

def hexDigitsAux : Nat → Nat → List Char
  | 0, _ => []
  | _ + 1, 0 => []
  | fuel + 1, n => hexDigitsAux fuel (n / 16) ++ [hexChar (n % 16)]

/-- `'%x' % n` for `n ≤ 0xFFFFFFFF`. -/
def hexStr (n : Nat) : List Char :=
  if n = 0 then ['0'] else hexDigitsAux 8 n

/-- The embedded-IPv4 step of `_ip_int_from_string`: when the last
colon-part contains a dot it must parse as IPv4 and is replaced by its two
hextets. -/
def ipv6PartsAfterV4 (parts : List (List Char)) : Option (List (List Char)) :=
  match parts.getLast? with
  | none => none
  | some last =>
      if last.contains '.' then
        match parseIPv4Int last with
        | some v => some (parts.dropLast ++ [hexStr (v / 65536), hexStr (v % 65536)])
        | none => none
      else some parts

/-- Indices `i` with `1 ≤ i ≤ len - 2` whose part is empty (candidate `::`
positions). -/
def midEmptyIndices (parts : List (List Char)) : List Nat :=
  (List.range parts.length).filter fun i =>
    decide (1 ≤ i) && decide (i + 1 < parts.length) && decide (parts.getD i ['x'] = [])

/-- The part-counting core of `_ip_int_from_string` after the embedded-IPv4
step: at most one `::`, a leading or trailing colon only as part of `::`,
at most 8 hextets (7 when `::` is present), each a valid hextet. -/
def is_valid_ipv6_core (parts : List (List Char)) : Bool :=
  if parts.length > 9 then false
  else
    match midEmptyIndices parts with
    | [] =>
        decide (parts.length = 8) && decide (parts.headD ['x'] ≠ []) &&
          decide (parts.getLastD ['x'] ≠ []) && parts.all validHextet
    | [si] =>
        let n := parts.length
        let hdE := parts.headD ['x'] = []
        let lastE := parts.getLastD ['x'] = []
        if hdE ∧ si ≠ 1 then false
        else if lastE ∧ n - si - 1 ≠ 1 then false
        else
          let hi := if hdE then 0 else si
          let lo := if lastE then 0 else n - si - 1
          if hi + lo > 7 then false
          else (parts.take hi).all validHextet && (parts.drop (n - lo)).all validHextet
    | _ => false

def is_valid_ipv6_noScope (cs : List Char) : Bool :=
  if cs = [] then false
  else
    let parts0 := splitOnChar ':' cs
    if parts0.length < 3 then false
    else
      match ipv6PartsAfterV4 parts0 with
      | none => false
      | some parts => is_valid_ipv6_core parts

def is_valid_ipv6 (cs : List Char) : Bool :=
  match splitOnChar '%' cs with
  | [addr] => is_valid_ipv6_noScope addr
  | [addr, scope] => decide (scope ≠ []) && is_valid_ipv6_noScope addr
  | _ => false

/-- `ipaddress.ip_address(value)` succeeds. -/
def is_valid_ip (s : String) : Bool :=
  is_valid_ipv4 s.data || is_valid_ipv6 s.data

/-! ## The hostname and URL regexes

`HOSTNAME_REGEX = re.compile(r"^[a-zA-Z0-9._-]{1,253}$")` and
`URL_REGEX = re.compile(r"^https?://[a-zA-Z0-9._:%/\-?=&+#~]+$")`, both used
with `.match`.  Python's `$` matches at the end of the string or just
before a trailing newline, which the matchers below reproduce by searching
over every length `k` the bounded repetition may consume. -/

def hostnameClassChar (c : Char) : Bool :=
  c.isAlphanum || c = '.' || c = '_' || c = '-'

/-- Python `$` holds at position `k`: end of string, or the position just
before a final `'\n'`. -/
def dollarAt (cs : List Char) (k : Nat) : Bool :=
  decide (k = cs.length) ||
    (decide (k + 1 = cs.length) && decide (cs.getLast? = some '\n'))

def HOSTNAME_REGEX_match (s : String) : Bool :=
  (List.range' 1 253).any fun k =>
    decide (k ≤ s.data.length) && (s.data.take k).all hostnameClassChar &&
      dollarAt s.data k

def urlClassChar (c : Char) : Bool :=
  c.isAlphanum || c = '.' || c = '_' || c = ':' || c = '%' || c = '/' ||
    c = '-' || c = '?' || c = '=' || c = '&' || c = '+' || c = '#' || c = '~'

def isPrefixChars : List Char → List Char → Bool
  | [], _ => true
  | _ :: _, [] => false
  | p :: ps, c :: cs => decide (p = c) && isPrefixChars ps cs

/-- `[class]+$` matched against `cs` (the part after the scheme). -/
def classBodyDollar (cls : Char → Bool) (cs : List Char) : Bool :=
  (List.range' 1 cs.length).any fun k =>
    (cs.take k).all cls && dollarAt cs k

def URL_REGEX_match (s : String) : Bool :=
  (isPrefixChars "http://".data s.data && classBodyDollar urlClassChar (s.data.drop 7)) ||
    (isPrefixChars "https://".data s.data && classBodyDollar urlClassChar (s.data.drop 8))

/-! ## Validators of `kali_server.py` -/

def validate_hostname_or_ip (value : String) (field : String) : Except String String :=
  if value = "" then .error (field ++ " is required")
  else if is_valid_ip value then .ok value
  else if HOSTNAME_REGEX_match value then .ok value
  else .error ("Invalid " ++ field ++ ": " ++ value)

def validate_url (value : String) (field : String) : Except String String :=
  if value = "" then .error (field ++ " is required")
  else if URL_REGEX_match value then .ok value
  else .error ("Invalid " ++ field ++ ": " ++ value)

def portsClassChar (c : Char) : Bool := c.isDigit || c = ',' || c = '-'

/-- `validate_ports`: `re.fullmatch(r"[0-9,\-]+", value)`, empty allowed. -/
def validate_ports (value : String) : Except String String :=
  if value = "" then .ok value
  else if decide (value.data ≠ []) && value.data.all portsClassChar then .ok value
  else .error ("Invalid ports specification: " ++ value)

/-! ## `sanitize_wordlist_path` and `pathlib.Path`

`Path(path)` normalises the spelling (drops empty and `.` components,
keeps `..`, keeps a double — but not triple — leading slash); `is_absolute`
holds when the path has a root; the allow-list check is
`str(p).startswith(str(prefix))` for the prefixes `/usr/share/wordlists`
and `/tmp` — a plain string-prefix check with no canonicalisation. -/

def pathRawParts (s : String) : List String :=
  ((splitOnChar '/' s.data).map String.mk).filter fun c => decide (c ≠ "" ∧ c ≠ ".")

def pathRootStr (s : String) : String :=
  match s.data with
  | '/' :: '/' :: '/' :: _ => "/"
  | '/' :: '/' :: _ => "//"
  | '/' :: _ => "/"
  | _ => ""

/-- `str(Path(s))`. -/
def pathStr (s : String) : String :=
  let r := pathRootStr s
  let ps := pathRawParts s
  if r = "" ∧ ps = [] then "." else r ++ String.intercalate "/" ps

/-- `Path(s).is_absolute()` (POSIX: the path has a root). -/
def path_is_absolute (s : String) : Bool := decide (pathRootStr s ≠ "")

def strStartsWith (s pre : String) : Bool := isPrefixChars pre.data s.data

def sanitize_wordlist_path (path : String) : Except String String :=
  let p := pathStr path
  if path_is_absolute path &&
      (strStartsWith p "/usr/share/wordlists" || strStartsWith p "/tmp") then
    .ok p
  else .error ("Wordlist path not permitted: " ++ path)

/-- Lexical resolution of `..` components, as used to state the spec's
notion of the location a path "canonically" refers to (symlinks are outside
the embedding). -/
def canonicalParts (s : String) : List String :=
  (pathRawParts s).foldl (fun acc c => if c = ".." then acc.dropLast else acc ++ [c]) []

def listStrPrefix : List String → List String → Bool
  | [], _ => true
  | _ :: _, [] => false
  | p :: ps, c :: cs => decide (p = c) && listStrPrefix ps cs

/-- Formalisation of the spec's phrase "canonically lie under an
allow-listed root": after resolving `..` lexically, the root's components
lead the path's components. -/
def canonicallyUnder (s : String) (root : String) : Bool :=
  path_is_absolute s && listStrPrefix (pathRawParts root) (canonicalParts s)

/-! ## How each executor launches the process

`kali_server.CommandExecutor.execute` calls
`subprocess.Popen(self.argv, stdout=PIPE, stderr=PIPE, text=True)`: the
argument vector goes to the process loader directly, `argv[0]` is resolved
by the standard executable-path lookup, `argv[1:]` are the arguments, and
no shell is involved.  `models.executor.CommandExecutor.execute` calls
`subprocess.Popen(self.command, shell=True, ...)`: the command string is
handed to `/bin/sh` for interpretation. -/

inductive LaunchMode
  | execv (program : String) (args : List String)
  | shell (command : String)
deriving DecidableEq

def LaunchMode.usesShell : LaunchMode → Bool
  | .execv _ _ => false
  | .shell _ => true

/-- The `Popen` call of `kali_server.CommandExecutor` (`Popen` raises on an
empty vector, hence the `Option`). -/
def kaliPopenLaunch : List String → Option LaunchMode
  | [] => none
  | p :: args => some (.execv p args)

/-- The `Popen` call of `models.executor.CommandExecutor`. -/
def modelsPopenLaunch (command : String) : LaunchMode := .shell command

/-! ## The `kali_server.py` executor -/

/-- What the spawned process does, as observed through
`proc.communicate(timeout=...)` / `Popen`: it completes in time with output
bytes and an exit code, it is still running when the timeout expires
(`subprocess.TimeoutExpired`, with whatever it had written so far), the
executable is missing (`FileNotFoundError`), or some other exception is
raised. -/
inductive ProcOutcome
  | completes (out err : List Nat) (code : Int)
  | timesOut (soFarOut soFarErr : List Nat)
  | notFound
  | fails (msg : String)

structure KaliResult where
  argv : List String
  stdout : List Nat
  stderr : List Nat
  return_code : Int
  success : Bool
  timed_out : Bool
deriving DecidableEq

def MAX_OUTPUT_BYTES_DEFAULT : Nat := 2 * 1024 * 1024

def TRUNCATION_MARKER : List Nat := strBytes "\n[TRUNCATED]"

/-- `if len(s.encode()) > MAX_OUTPUT_BYTES: s = s.encode()[:MAX].decode(errors="ignore") + "\n[TRUNCATED]"`. -/
def truncateStream (maxBytes : Nat) (s : List Nat) : List Nat :=
  if s.length > maxBytes then s.take maxBytes ++ TRUNCATION_MARKER else s

/-- `kali_server.CommandExecutor.execute`, as a function of the process's
behaviour.  On `TimeoutExpired` the code calls `proc.kill()` and returns a
fixed result whose stdout is empty — the bytes the process wrote before the
timeout are not read and not returned. -/
def kaliExecute (argv : List String) (timeout maxBytes : Nat) (b : ProcOutcome) :
    KaliResult :=
  match b with
  | .completes out err code =>
      { argv := argv, stdout := truncateStream maxBytes out,
        stderr := truncateStream maxBytes err, return_code := code,
        success := code == 0, timed_out := false }
  | .timesOut _ _ =>
      { argv := argv, stdout := [],
        stderr := strBytes ("Process timed out after " ++ toString timeout ++ "s"),
        return_code := -1, success := false, timed_out := true }
  | .notFound =>
      { argv := argv, stdout := [], stderr := strBytes "Executable not found",
        return_code := 127, success := false, timed_out := false }
  | .fails msg =>
      { argv := argv, stdout := [], stderr := strBytes ("Execution error: " ++ msg),
        return_code := -1, success := false, timed_out := false }

/-! ## The `models/executor.py` executor -/

/-- Process behaviour seen by `models.executor.CommandExecutor.execute`:
completion, timeout (with the bytes the reader threads accumulated so far,
and whether the process exits within the 5-second grace period after
`terminate()`), or an exception (with the bytes accumulated so far). -/
inductive MProcOutcome
  | completes (out err : List Nat) (code : Int)
  | timesOut (soFarOut soFarErr : List Nat) (respondsToTerm : Bool)
  | fails (soFarOut soFarErr : List Nat) (msg : String)

structure ModelsResult where
  stdout : List Nat
  stderr : List Nat
  return_code : Int
  success : Bool
  timed_out : Bool
  partial_results : Bool
deriving DecidableEq

/-- `models.executor.CommandExecutor.execute`.  The reader threads append
every line they see, with no byte ceiling and no truncation marker.
`success = True if self.timed_out and (stdout or stderr) else (return_code == 0)`;
`partial_results = self.timed_out and (stdout or stderr)` (Python stores the
truthy string itself; modelled by its truth value). -/
def modelsExecute (command : String) (timeout : Nat) (b : MProcOutcome) :
    ModelsResult :=
  match b with
  | .completes out err code =>
      { stdout := out, stderr := err, return_code := code,
        success := code == 0, timed_out := false, partial_results := false }
  | .timesOut po pe _ =>
      { stdout := po, stderr := pe, return_code := -1,
        success := decide (po ≠ []) || decide (pe ≠ []),
        timed_out := true,
        partial_results := decide (po ≠ []) || decide (pe ≠ []) }
  | .fails po pe msg =>
      { stdout := po, stderr := pe ++ strBytes ("\nError: " ++ msg),
        return_code := -1, success := false, timed_out := false,
        partial_results := false }

/-! ## Termination sequences on timeout -/

inductive TermAction
  | terminate
  | waitGrace (seconds : Nat)
  | kill
deriving DecidableEq

/-- The `except subprocess.TimeoutExpired` branch of
`kali_server.CommandExecutor.execute`: `proc.kill()`, nothing else. -/
def kaliTimeoutActions : List TermAction := [.kill]

/-- The `except subprocess.TimeoutExpired` branch of
`models.executor.CommandExecutor.execute`: `terminate()`, `wait(timeout=5)`,
and `kill()` only when the process is still alive after the grace period. -/
def modelsTimeoutActions (respondsToTerm : Bool) : List TermAction :=
  [.terminate, .waitGrace 5] ++ (if respondsToTerm then [] else [.kill])

/-! ## The nmap request handler

`nmap()` of `kali_server.py`: `target` must pass `validate_hostname_or_ip`;
`scan_type` defaults to `"-sCV"` when the key is absent and is split with
`shlex.split` but otherwise unvalidated; `ports` passes `validate_ports`
when truthy; `additional_args` defaults to `"-T4 -Pn"` when the key is
absent and passes `parse_additional_args`.  A `ValueError` from any of
these becomes a 400 response; otherwise the assembled vector runs. -/

structure NmapRequest where
  target : Option String
  scan_type : Option String
  ports : Option String
  additional_args : Option String

/-- `data.get(key, default)`: the default applies only when the key is
absent. -/
def jsonGet (v : Option String) (dflt : String) : String := v.getD dflt

def nmapHandler (d : NmapRequest) : Except String (List String) :=
  match validate_hostname_or_ip (jsonGet d.target "") "target" with
  | .error e => .error e
  | .ok target =>
    let scan_type := jsonGet d.scan_type "-sCV"
    let portsRaw := jsonGet d.ports ""
    match (if portsRaw ≠ "" then validate_ports portsRaw else .ok "") with
    | .error e => .error e
    | .ok ports =>
      match parse_additional_args (jsonGet d.additional_args "-T4 -Pn") with
      | .error e => .error e
      | .ok additional_args =>
        match (if scan_type ≠ "" then shlexSplit scan_type else .ok []) with
        | .error e => .error e
        | .ok scanToks =>
          .ok (["nmap"] ++ scanToks ++ (if ports ≠ "" then ["-p", ports] else []) ++
            additional_args ++ [target])

/-- The whole endpoint: a validation failure is a 400 error response; an
execution — timeout included — is a 200 response carrying the structured
result. -/
def nmapEndpoint (d : NmapRequest) (timeout maxBytes : Nat) (b : ProcOutcome) :
    Except String KaliResult :=
  (nmapHandler d).map fun argv => kaliExecute argv timeout maxBytes b

/-! ## Shared helper lemmas -/

theorem validate_hostname_or_ip_ok_eq (v f r : String)
    (h : validate_hostname_or_ip v f = .ok r) : r = v := by
  unfold validate_hostname_or_ip at h
  split at h
  · cases h
  · split at h
    · cases h; rfl
    · split at h
      · cases h; rfl
      · cases h

theorem validate_url_ok_eq (v f r : String)
    (h : validate_url v f = .ok r) : r = v := by
  unfold validate_url at h
  split at h
  · cases h
  · split at h
    · cases h; rfl
    · cases h

theorem validate_ports_ok_eq (v r : String)
    (h : validate_ports v = .ok r) : r = v := by
  unfold validate_ports at h
  split at h
  · cases h; rfl
  · split at h
    · cases h; rfl
    · cases h

theorem resultOk_ok {α : Type} (a : α) : resultOk (Except.ok a : Except String α) = true := rfl

theorem resultOk_error {α : Type} (e : String) :
    resultOk (Except.error e : Except String α) = false := rfl

/-! ## C1 — shell-free launching -/

/-- C1 counterexample: the claim says every execution request launches the
program by passing an argument vector to the process loader with no shell
interpretation, but `models.executor.CommandExecutor.execute` hands its
command string to a shell (`subprocess.Popen(command, shell=True, ...)`). -/
theorem C1_counterexample_models_executor_uses_shell :
    modelsPopenLaunch "nmap -sCV 10.0.0.5" = LaunchMode.shell "nmap -sCV 10.0.0.5" ∧
    (modelsPopenLaunch "nmap -sCV 10.0.0.5").usesShell = true :=
  ⟨rfl, rfl⟩

/-- C1 (amended): the `kali_server.py` runner — the one every HTTP request
handler delegates to — passes the argument vector directly to the process
loader: the program is `argv[0]`, the arguments are exactly `argv[1:]`, and
no launch it performs uses a shell; the `models/executor.py` runner, by
contrast, passes its command string through a shell. -/
theorem C1_amended_kali_launch_is_shell_free :
    (∀ p args, kaliPopenLaunch (p :: args) = some (LaunchMode.execv p args)) ∧
    (∀ argv m, kaliPopenLaunch argv = some m → m.usesShell = false) ∧
    (∀ cmd, (modelsPopenLaunch cmd).usesShell = true) := by
  refine ⟨fun p args => rfl, ?_, fun cmd => rfl⟩
  intro argv m h
  cases argv with
  | nil => cases h
  | cons p args => cases h; rfl

/-- C1 witness: the amended theorem applied at a concrete vector. -/
theorem C1_witness_concrete_launch :
    kaliPopenLaunch ["nmap", "-sCV", "10.0.0.5"] =
      some (LaunchMode.execv "nmap" ["-sCV", "10.0.0.5"]) ∧
    (LaunchMode.execv "nmap" ["-sCV", "10.0.0.5"]).usesShell = false :=
  ⟨C1_amended_kali_launch_is_shell_free.1 "nmap" ["-sCV", "10.0.0.5"],
   C1_amended_kali_launch_is_shell_free.2.1 ["nmap", "-sCV", "10.0.0.5"] _
     (C1_amended_kali_launch_is_shell_free.1 "nmap" ["-sCV", "10.0.0.5"])⟩

/-! ## C3 — the wordlist-path validator -/

/-- C3 counterexample: the claim says every spelling that canonically lies
outside the allow-listed roots — `../` traversal included — is rejected,
but `sanitize_wordlist_path` accepts
`/usr/share/wordlists/../../../etc/passwd`, which resolves to
`/etc/passwd`, outside both roots. -/
theorem C3_counterexample_traversal_accepted :
    sanitize_wordlist_path "/usr/share/wordlists/../../../etc/passwd" =
      .ok "/usr/share/wordlists/../../../etc/passwd" ∧
    canonicallyUnder "/usr/share/wordlists/../../../etc/passwd" "/usr/share/wordlists" = false ∧
    canonicallyUnder "/usr/share/wordlists/../../../etc/passwd" "/tmp" = false :=
  ⟨rfl, rfl, rfl⟩

/-- C3 (amended): the validator accepts exactly the absolute paths whose
normalised spelling begins with the string `/usr/share/wordlists` or
`/tmp` — a prefix check on the spelling with no canonicalisation.  It
therefore accepts `../` spellings that canonically escape the roots and
sibling paths such as `/tmpfoo`, and rejects spellings such as
`/var/../tmp/x` that canonically lie inside a root. -/
theorem C3_amended_prefix_only_path_check :
    (∀ s, resultOk (sanitize_wordlist_path s) =
      (path_is_absolute s &&
        (strStartsWith (pathStr s) "/usr/share/wordlists" ||
          strStartsWith (pathStr s) "/tmp"))) ∧
    sanitize_wordlist_path "/tmpfoo" = .ok "/tmpfoo" ∧
    canonicallyUnder "/tmpfoo" "/tmp" = false ∧
    resultOk (sanitize_wordlist_path "/var/../tmp/x") = false ∧
    canonicallyUnder "/var/../tmp/x" "/tmp" = true := by
  refine ⟨?_, rfl, rfl, rfl, rfl⟩
  intro s
  unfold sanitize_wordlist_path
  cases hb : (path_is_absolute s &&
      (strStartsWith (pathStr s) "/usr/share/wordlists" ||
        strStartsWith (pathStr s) "/tmp")) <;>
    simp [hb, resultOk]

/-! ## C4 — partial output on timeout -/

/-- C4 counterexample: the claim says partial stdout captured before the
timeout is retained in the structured result, but the `kali_server.py`
executor returns an empty stdout and a fixed timeout message whenever the
timeout fires, whatever the process had written. -/
theorem C4_counterexample_partial_output_discarded :
    (kaliExecute ["nmap", "10.0.0.5"] 180 MAX_OUTPUT_BYTES_DEFAULT
        (.timesOut (strBytes "partial scan output") (strBytes "late errors"))).stdout = [] ∧
    strBytes "partial scan output" ≠ [] ∧
    (kaliExecute ["nmap", "10.0.0.5"] 180 MAX_OUTPUT_BYTES_DEFAULT
        (.timesOut (strBytes "partial scan output") (strBytes "late errors"))).stderr =
      strBytes "Process timed out after 180s" := by
  refine ⟨rfl, by decide, rfl⟩

/-- C4 (amended): a timeout is reported inside the structured result
(`timed_out = true`, `return_code = -1`), never as an HTTP-level error —
the endpoint answers 200 whenever validation passed, whatever the process
did.  But the `kali_server.py` runner discards the partial output
(empty stdout, a fixed timeout message as stderr); only the
`models/executor.py` runner retains partial stdout/stderr, flagging
`partial_results`. -/
theorem C4_amended_timeout_in_result_not_http :
    (∀ argv t mx po pe,
      kaliExecute argv t mx (.timesOut po pe) =
        { argv := argv, stdout := [],
          stderr := strBytes ("Process timed out after " ++ toString t ++ "s"),
          return_code := -1, success := false, timed_out := true }) ∧
    (∀ cmd t po pe r,
      (modelsExecute cmd t (.timesOut po pe r)).stdout = po ∧
      (modelsExecute cmd t (.timesOut po pe r)).stderr = pe ∧
      (modelsExecute cmd t (.timesOut po pe r)).timed_out = true ∧
      (po ≠ [] → (modelsExecute cmd t (.timesOut po pe r)).partial_results = true)) ∧
    (∀ d t mx b, resultOk (nmapEndpoint d t mx b) = resultOk (nmapHandler d)) := by
  refine ⟨fun argv t mx po pe => rfl, ?_, ?_⟩
  · intro cmd t po pe r
    refine ⟨rfl, rfl, rfl, ?_⟩
    intro hpo
    simp [modelsExecute, hpo]
  · intro d t mx b
    cases h : nmapHandler d <;> simp [nmapEndpoint, h, resultOk, Except.map]

/-- C4 witness: the amended theorem applied at a concrete timed-out
execution with nonempty partial output. -/
theorem C4_witness_concrete_timeout :
    (modelsExecute "nmap 10.0.0.5" 180
        (.timesOut (strBytes "partial") [] true)).stdout = strBytes "partial" ∧
    (modelsExecute "nmap 10.0.0.5" 180
        (.timesOut (strBytes "partial") [] true)).partial_results = true :=
  ⟨(C4_amended_timeout_in_result_not_http.2.1 "nmap 10.0.0.5" 180
      (strBytes "partial") [] true).1,
   (C4_amended_timeout_in_result_not_http.2.1 "nmap 10.0.0.5" 180
      (strBytes "partial") [] true).2.2.2 (by decide)⟩

/-! ## C5 — termination sequence on timeout -/

/-- C5 counterexample: the claim says the runner first sends a graceful
termination signal and waits a grace period before force-killing, but the
`kali_server.py` executor's timeout branch calls `proc.kill()` only — it
never terminates gracefully and never waits. -/
theorem C5_counterexample_kali_kills_immediately :
    kaliTimeoutActions = [TermAction.kill] ∧
    TermAction.terminate ∉ kaliTimeoutActions ∧
    TermAction.waitGrace 5 ∉ kaliTimeoutActions :=
  ⟨rfl, by decide, by decide⟩

/-- C5 (amended): the graceful sequence — `terminate()`, a 5-second grace
wait, `kill()` only if the process is still alive — is implemented by the
`models/executor.py` runner, and both runners mark a timed-out execution
with `timed_out = true` and `return_code = -1`; the `kali_server.py`
runner instead force-kills immediately. -/
theorem C5_amended_graceful_termination_in_models :
    modelsTimeoutActions true = [TermAction.terminate, TermAction.waitGrace 5] ∧
    modelsTimeoutActions false =
      [TermAction.terminate, TermAction.waitGrace 5, TermAction.kill] ∧
    (∀ r, (TermAction.kill ∈ modelsTimeoutActions r) ↔ r = false) ∧
    (∀ cmd t po pe r,
      (modelsExecute cmd t (.timesOut po pe r)).timed_out = true ∧
      (modelsExecute cmd t (.timesOut po pe r)).return_code = -1) ∧
    (∀ argv t mx po pe,
      (kaliExecute argv t mx (.timesOut po pe)).timed_out = true ∧
      (kaliExecute argv t mx (.timesOut po pe)).return_code = -1) ∧
    kaliTimeoutActions = [TermAction.kill] := by
  refine ⟨rfl, rfl, ?_, fun cmd t po pe r => ⟨rfl, rfl⟩,
    fun argv t mx po pe => ⟨rfl, rfl⟩, rfl⟩
  intro r
  cases r <;> simp [modelsTimeoutActions]

/-- C5 witness: the amended theorem applied at a concrete timed-out
execution. -/
theorem C5_witness_concrete_termination :
    (modelsExecute "sleep 1000" 5 (.timesOut [] [] false)).timed_out = true ∧
    (modelsExecute "sleep 1000" 5 (.timesOut [] [] false)).return_code = -1 ∧
    (TermAction.kill ∈ modelsTimeoutActions false) :=
  ⟨(C5_amended_graceful_termination_in_models.2.2.2.1 "sleep 1000" 5 [] [] false).1,
   (C5_amended_graceful_termination_in_models.2.2.2.1 "sleep 1000" 5 [] [] false).2,
   (C5_amended_graceful_termination_in_models.2.2.1 false).mpr rfl⟩

/-! ## C6 — output bounding -/

/-- C6 counterexample: the claim says every execution's streams are
truncated to the configured ceiling plus a marker, but the
`models/executor.py` reader threads accumulate without any ceiling: a
stream longer than the 2 MiB default ceiling plus the marker length is
returned whole, unmarked. -/
theorem C6_counterexample_models_unbounded_output :
    (modelsExecute "nmap -A 10.0.0.5" 180
        (.completes (List.replicate 2097165 65) [] 0)).stdout =
      List.replicate 2097165 65 ∧
    (List.replicate 2097165 65).length >
      MAX_OUTPUT_BYTES_DEFAULT + TRUNCATION_MARKER.length := by
  constructor
  · rfl
  · have h1 : (List.replicate 2097165 65).length = 2097165 := List.length_replicate _ _
    have h2 : MAX_OUTPUT_BYTES_DEFAULT + TRUNCATION_MARKER.length = 2097164 := rfl
    rw [gt_iff_lt, h1, h2]
    norm_num

/-- C6 (amended): the `kali_server.py` executor truncates each stream to
the configured ceiling and appends the `\n[TRUNCATED]` marker, so the
returned bytes per stream never exceed ceiling + marker length; streams
within the ceiling are returned unchanged.  The `models/executor.py`
executor applies no bounding at all. -/
theorem C6_amended_bounding_only_in_kali :
    (∀ argv t mx out err code,
      (kaliExecute argv t mx (.completes out err code)).stdout.length ≤
        mx + TRUNCATION_MARKER.length ∧
      (kaliExecute argv t mx (.completes out err code)).stderr.length ≤
        mx + TRUNCATION_MARKER.length ∧
      (out.length > mx →
        (kaliExecute argv t mx (.completes out err code)).stdout =
          out.take mx ++ TRUNCATION_MARKER) ∧
      (out.length ≤ mx →
        (kaliExecute argv t mx (.completes out err code)).stdout = out)) ∧
    (∀ cmd t out err code,
      (modelsExecute cmd t (.completes out err code)).stdout = out ∧
      (modelsExecute cmd t (.completes out err code)).stderr = err) := by
  constructor
  · intro argv t mx out err code
    have hlen : ∀ s : List Nat, (truncateStream mx s).length ≤ mx + TRUNCATION_MARKER.length := by
      intro s
      unfold truncateStream
      split
      · rw [List.length_append, List.length_take]
        omega
      · omega
    refine ⟨hlen out, hlen err, ?_, ?_⟩
    · intro hgt
      show truncateStream mx out = out.take mx ++ TRUNCATION_MARKER
      unfold truncateStream
      rw [if_pos hgt]
    · intro hle
      show truncateStream mx out = out
      unfold truncateStream
      rw [if_neg (by omega)]
  · intro cmd t out err code
    exact ⟨rfl, rfl⟩

/-- C6 witness: the amended theorem applied at a concrete over-long
stream. -/
theorem C6_witness_concrete_truncation :
    (kaliExecute ["nmap"] 180 4 (.completes [65, 65, 65, 65, 65, 65] [] 0)).stdout =
      [65, 65, 65, 65] ++ TRUNCATION_MARKER :=
  ((C6_amended_bounding_only_in_kali.1 ["nmap"] 180 4 [65, 65, 65, 65, 65, 65] [] 0).2.2.1
    (by decide))

/-! ## C9 — accepted values are returned unchanged -/

/-- C9: the hostname-or-IP, URL and port-specification validators return
the accepted input string itself, unchanged — acceptance never normalises
or rewrites the value. -/
theorem C9_validators_return_input_unchanged :
    (∀ v f r, validate_hostname_or_ip v f = .ok r → r = v) ∧
    (∀ v f r, validate_url v f = .ok r → r = v) ∧
    (∀ v r, validate_ports v = .ok r → r = v) :=
  ⟨validate_hostname_or_ip_ok_eq, validate_url_ok_eq, validate_ports_ok_eq⟩

/-- C9 witness: the theorem applied to concrete accepted inputs. -/
theorem C9_witness_concrete_unchanged :
    "10.0.0.5" = "10.0.0.5" ∧ "http://example.com" = "http://example.com" ∧
    "80,443" = "80,443" :=
  ⟨C9_validators_return_input_unchanged.1 "10.0.0.5" "target" "10.0.0.5" rfl,
   C9_validators_return_input_unchanged.2.1 "http://example.com" "url" "http://example.com" rfl,
   C9_validators_return_input_unchanged.2.2 "80,443" "80,443" rfl⟩

/-! ## C10 — nmap defaults apply only to absent fields -/

/-- C10: `data.get(key, default)` substitutes the default only when the key
is absent: a request carrying `scan_type = ""` and `additional_args = ""`
yields a vector with no `-sCV`, `-T4` or `-Pn` default tokens (just the
tool, the optional ports pair and the target), while a request without
those keys gets the documented defaults. -/
theorem C10_nmap_defaults_only_when_absent :
    nmapHandler ⟨some "10.0.0.5", some "", none, some ""⟩ = .ok ["nmap", "10.0.0.5"] ∧
    nmapHandler ⟨some "10.0.0.5", none, none, none⟩ =
      .ok ["nmap", "-sCV", "-T4", "-Pn", "10.0.0.5"] ∧
    (∀ tgt pv v, nmapHandler ⟨some tgt, some "", pv, some ""⟩ = .ok v →
      v = ["nmap", tgt] ∨ ∃ p, v = ["nmap", "-p", p, tgt]) := by
  refine ⟨rfl, rfl, ?_⟩
  intro tgt pv v h
  unfold nmapHandler at h
  dsimp only [jsonGet, Option.getD] at h
  cases hv : validate_hostname_or_ip tgt "target" with
  | error e => rw [hv] at h; cases h
  | ok target =>
    rw [hv] at h
    dsimp only at h
    obtain rfl : target = tgt := validate_hostname_or_ip_ok_eq _ _ _ hv
    cases pv with
    | none =>
      rw [if_neg (by simp)] at h
      dsimp only at h
      rw [show parse_additional_args "" = Except.ok [] from rfl] at h
      dsimp only at h
      rw [if_neg (by simp)] at h
      dsimp only at h
      rw [if_neg (by simp)] at h
      cases h
      exact Or.inl rfl
    | some p =>
      by_cases hp : p = ""
      · subst hp
        rw [if_neg (by simp)] at h
        dsimp only at h
        rw [show parse_additional_args "" = Except.ok [] from rfl] at h
        dsimp only at h
        rw [if_neg (by simp)] at h
        dsimp only at h
        rw [if_neg (by simp)] at h
        cases h
        exact Or.inl rfl
      · rw [if_pos hp] at h
        cases hvp : validate_ports p with
        | error e => rw [hvp] at h; cases h
        | ok ports =>
          rw [hvp] at h
          dsimp only at h
          obtain rfl : ports = p := validate_ports_ok_eq _ _ hvp
          rw [show parse_additional_args "" = Except.ok [] from rfl] at h
          dsimp only at h
          rw [if_neg (by simp)] at h
          dsimp only at h
          rw [if_pos hp] at h
          cases h
          exact Or.inr ⟨_, rfl⟩

/-! ## C2 — unvalidated request data reaching the argument vector -/

/-- C2: the invariant fails in the nmap handler — `scan_type` is read from
the request, split with `shlex.split` and appended to the vector without
any validator: the token `$(evil)` reaches the vector although every
validator rule (hostname, URL, ports, additional-args token, flag grammar,
wordlist path) rejects it. -/
theorem C2_nmap_scan_type_bypasses_validation :
    nmapHandler ⟨some "10.0.0.5", some "$(evil)", none, some ""⟩ =
      .ok ["nmap", "$(evil)", "10.0.0.5"] ∧
    resultOk (validate_hostname_or_ip "$(evil)" "target") = false ∧
    resultOk (validate_url "$(evil)" "url") = false ∧
    resultOk (validate_ports "$(evil)") = false ∧
    resultOk (parse_additional_args "$(evil)") = false ∧
    matchSafeFlag "$(evil)".data = false ∧
    resultOk (sanitize_wordlist_path "$(evil)") = false :=
  ⟨rfl, rfl, rfl, rfl, rfl, rfl, rfl⟩

/-! ## C7 — metacharacters are rejected by the additional-args validator -/

theorem shlexEmit_keeps (c : Char) (cur : List Char) (flag : Bool) (acc : List String)
    (h : c ∈ cur ∨ ∃ t ∈ acc, c ∈ t.data) :
    ∃ t ∈ shlexEmit cur flag acc, c ∈ t.data := by
  unfold shlexEmit
  rcases h with h | ⟨t, ht, hct⟩
  · have hne : cur ≠ [] := by intro hnil; rw [hnil] at h; cases h
    rw [if_pos (Or.inl hne)]
    exact ⟨String.mk cur, List.mem_append_right _ (by simp), h⟩
  · split
    · exact ⟨t, List.mem_append_left _ ht, hct⟩
    · exact ⟨t, ht, hct⟩

theorem shlexRun_keeps_ordinary (c : Char) (hc : shlexOrdinary c = true) :
    ∀ (input : List Char) (st : SState) (cur : List Char) (flag : Bool)
      (acc toks : List String),
      shlexRun input st cur flag acc = .ok toks →
      (c ∈ input ∨ c ∈ cur ∨ ∃ t ∈ acc, c ∈ t.data) →
      ∃ t ∈ toks, c ∈ t.data := by
  simp only [shlexOrdinary, Bool.and_eq_true, Bool.not_eq_true', decide_eq_true_eq] at hc
  obtain ⟨⟨⟨hcw, hbs⟩, hsq⟩, hdq⟩ := hc
  intro input
  induction input with
  | nil =>
    intro st cur flag acc toks hrun hmem
    cases st with
    | normal =>
      simp only [shlexRun] at hrun
      cases hrun
      rcases hmem with h | h
      · cases h
      · exact shlexEmit_keeps c cur flag acc h
    | escaped => exact absurd hrun (by simp [shlexRun])
    | squote => exact absurd hrun (by simp [shlexRun])
    | dquote => exact absurd hrun (by simp [shlexRun])
    | dqescaped => exact absurd hrun (by simp [shlexRun])
  | cons a rest ih =>
    intro st cur flag acc toks hrun hmem
    have hmem' : (c = a ∨ c ∈ rest) ∨ c ∈ cur ∨ ∃ t ∈ acc, c ∈ t.data := by
      rcases hmem with h | h
      · exact Or.inl (List.mem_cons.mp h)
      · exact Or.inr h
    cases st with
    | normal =>
      simp only [shlexRun] at hrun
      by_cases hws : isShWhitespace a
      · rw [if_pos hws] at hrun
        refine ih .normal [] false (shlexEmit cur flag acc) toks hrun ?_
        rcases hmem' with (rfl | h) | h
        · simp [hcw] at hws
        · exact Or.inl h
        · exact Or.inr (Or.inr (shlexEmit_keeps c cur flag acc h))
      · rw [if_neg hws] at hrun
        by_cases hba : a = '\\'
        · rw [if_pos hba] at hrun
          refine ih .escaped cur flag acc toks hrun ?_
          rcases hmem' with (rfl | h) | h
          · exact absurd hba hbs
          · exact Or.inl h
          · exact Or.inr h
        · rw [if_neg hba] at hrun
          by_cases hqa : a = '\''
          · rw [if_pos hqa] at hrun
            refine ih .squote cur true acc toks hrun ?_
            rcases hmem' with (rfl | h) | h
            · exact absurd hqa hsq
            · exact Or.inl h
            · exact Or.inr h
          · rw [if_neg hqa] at hrun
            by_cases hda : a = '"'
            · rw [if_pos hda] at hrun
              refine ih .dquote cur true acc toks hrun ?_
              rcases hmem' with (rfl | h) | h
              · exact absurd hda hdq
              · exact Or.inl h
              · exact Or.inr h
            · rw [if_neg hda] at hrun
              refine ih .normal (cur ++ [a]) flag acc toks hrun ?_
              rcases hmem' with (rfl | h) | h | h
              · exact Or.inr (Or.inl (List.mem_append_right _ (by simp)))
              · exact Or.inl h
              · exact Or.inr (Or.inl (List.mem_append_left _ h))
              · exact Or.inr (Or.inr h)
    | escaped =>
      simp only [shlexRun] at hrun
      refine ih .normal (cur ++ [a]) flag acc toks hrun ?_
      rcases hmem' with (rfl | h) | h | h
      · exact Or.inr (Or.inl (List.mem_append_right _ (by simp)))
      · exact Or.inl h
      · exact Or.inr (Or.inl (List.mem_append_left _ h))
      · exact Or.inr (Or.inr h)
    | squote =>
      simp only [shlexRun] at hrun
      by_cases hqa : a = '\''
      · rw [if_pos hqa] at hrun
        refine ih .normal cur flag acc toks hrun ?_
        rcases hmem' with (rfl | h) | h
        · exact absurd hqa hsq
        · exact Or.inl h
        · exact Or.inr h
      · rw [if_neg hqa] at hrun
        refine ih .squote (cur ++ [a]) flag acc toks hrun ?_
        rcases hmem' with (rfl | h) | h | h
        · exact Or.inr (Or.inl (List.mem_append_right _ (by simp)))
        · exact Or.inl h
        · exact Or.inr (Or.inl (List.mem_append_left _ h))
        · exact Or.inr (Or.inr h)
    | dquote =>
      simp only [shlexRun] at hrun
      by_cases hda : a = '"'
      · rw [if_pos hda] at hrun
        refine ih .normal cur flag acc toks hrun ?_
        rcases hmem' with (rfl | h) | h
        · exact absurd hda hdq
        · exact Or.inl h
        · exact Or.inr h
      · rw [if_neg hda] at hrun
        by_cases hba : a = '\\'
        · rw [if_pos hba] at hrun
          refine ih .dqescaped cur flag acc toks hrun ?_
          rcases hmem' with (rfl | h) | h
          · exact absurd hba hbs
          · exact Or.inl h
          · exact Or.inr h
        · rw [if_neg hba] at hrun
          refine ih .dquote (cur ++ [a]) flag acc toks hrun ?_
          rcases hmem' with (rfl | h) | h | h
          · exact Or.inr (Or.inl (List.mem_append_right _ (by simp)))
          · exact Or.inl h
          · exact Or.inr (Or.inl (List.mem_append_left _ h))
          · exact Or.inr (Or.inr h)
    | dqescaped =>
      simp only [shlexRun] at hrun
      refine ih .dquote (cur ++ (if a = '"' ∨ a = '\\' then [a] else ['\\', a]))
        flag acc toks hrun ?_
      rcases hmem' with (rfl | h) | h | h
      · refine Or.inr (Or.inl (List.mem_append_right _ ?_))
        split <;> simp
      · exact Or.inl h
      · exact Or.inr (Or.inl (List.mem_append_left _ h))
      · exact Or.inr (Or.inr h)

theorem matchTail_chars : ∀ cs, matchTail cs = true → ∀ c ∈ cs, flagCharOK c = true := by
  intro cs
  induction cs with
  | nil => intro _ c hc; cases hc
  | cons a rest ih =>
    intro h c hc
    unfold matchTail at h
    by_cases ha : a = '='
    · rw [if_pos ha] at h
      rw [Bool.and_eq_true] at h
      obtain ⟨_, hall⟩ := h
      rcases List.mem_cons.mp hc with rfl | hc
      · simp [flagCharOK, ha]
      · have hv := List.all_eq_true.mp hall c hc
        simp [flagCharOK, hv]
    · rw [if_neg ha] at h
      rw [Bool.and_eq_true] at h
      obtain ⟨h1, h2⟩ := h
      rcases List.mem_cons.mp hc with rfl | hc
      · rw [Bool.or_eq_true] at h1
        rcases h1 with hw | hd
        · simp [flagCharOK, hw]
        · simp [flagCharOK, decide_eq_true_eq.mp hd]
      · exact ih h2 c hc

theorem matchFlagBody_chars :
    ∀ cs, matchFlagBody cs = true → ∀ c ∈ cs, flagCharOK c = true := by
  intro cs h c hc
  cases cs with
  | nil => cases hc
  | cons a rest =>
    unfold matchFlagBody at h
    rw [Bool.and_eq_true] at h
    obtain ⟨h1, h2⟩ := h
    rcases List.mem_cons.mp hc with rfl | hc
    · simp [flagCharOK, h1]
    · exact matchTail_chars rest h2 c hc

theorem matchFlagCore_chars :
    ∀ cs, matchFlagCore cs = true → ∀ c ∈ cs, flagCharOK c = true := by
  intro cs h c hc
  cases cs with
  | nil => cases hc
  | cons a rest =>
    cases rest with
    | nil => simp only [matchFlagCore] at h; cases h
    | cons b rest2 =>
      simp only [matchFlagCore] at h
      by_cases ha : a = '-'
      · rw [if_pos ha] at h
        rcases List.mem_cons.mp hc with rfl | hc2
        · simp [flagCharOK, ha]
        · by_cases hb : b = '-'
          · rw [if_pos hb] at h
            rcases List.mem_cons.mp hc2 with rfl | hc3
            · simp [flagCharOK, hb]
            · exact matchFlagBody_chars rest2 h c hc3
          · rw [if_neg hb] at h
            exact matchFlagBody_chars (b :: rest2) h c hc2
      · rw [if_neg ha] at h
        cases h

theorem matchSafeFlag_chars :
    ∀ cs, matchSafeFlag cs = true → ∀ c ∈ cs, flagCharOK c = true := by
  intro cs h c hc
  unfold matchSafeFlag at h
  rw [Bool.or_eq_true] at h
  rcases h with h | h
  · exact matchFlagCore_chars cs h c hc
  · rw [Bool.and_eq_true] at h
    obtain ⟨hl, hcore⟩ := h
    have hlast : cs.getLast? = some '\n' := decide_eq_true_eq.mp hl
    have hne : cs ≠ [] := by rintro rfl; cases hc
    have hsplit : cs.dropLast ++ [cs.getLast hne] = cs := List.dropLast_append_getLast hne
    rw [← hsplit] at hc
    rcases List.mem_append.mp hc with h1 | h1
    · exact matchFlagCore_chars _ hcore c h1
    · have hc2 : c = cs.getLast hne := by simpa using h1
      have hgl : cs.getLast hne = '\n' := by
        have := List.getLast?_eq_getLast cs hne
        rw [this] at hlast
        exact Option.some.inj hlast
      simp [flagCharOK, hc2, hgl]

/-- No metacharacter satisfies the flag character classes. -/
theorem sevenMetachars_not_flagCharOK : ∀ c ∈ sevenMetachars, flagCharOK c = false := by
  decide

theorem sevenMetachars_bad : ∀ c ∈ sevenMetachars, c ∈ tokenBadChars := by decide

theorem sevenMetachars_ordinary : ∀ c ∈ sevenMetachars, shlexOrdinary c = true := by
  decide

theorem parsePartsGo_ok_eq : ∀ (parts safe : List String),
    parsePartsGo parts = .ok safe → safe = parts := by
  intro parts
  induction parts with
  | nil => intro safe h; cases h; rfl
  | cons t rest ih =>
    intro safe h
    unfold parsePartsGo at h
    by_cases hd : startsWithDash t = true
    · rw [if_pos hd] at h
      by_cases hf : matchSafeFlag t.data = true
      · rw [if_pos hf] at h
        cases hrec : parsePartsGo rest with
        | error e => rw [hrec] at h; cases h
        | ok l =>
            rw [hrec] at h
            dsimp only [Except.map] at h
            cases h
            rw [ih l hrec]
      · rw [if_neg hf] at h; cases h
    · rw [if_neg hd] at h
      by_cases hb : (t.data.any fun c => tokenBadChars.contains c) = true
      · rw [if_pos hb] at h; cases h
      · rw [if_neg hb] at h
        cases hrec : parsePartsGo rest with
        | error e => rw [hrec] at h; cases h
        | ok l =>
            rw [hrec] at h
            dsimp only [Except.map] at h
            cases h
            rw [ih l hrec]

theorem parsePartsGo_ok_checks : ∀ (parts safe : List String),
    parsePartsGo parts = .ok safe → ∀ t ∈ parts, checkToken t = true := by
  intro parts
  induction parts with
  | nil => intro safe _ t ht; cases ht
  | cons u rest ih =>
    intro safe h t ht
    unfold parsePartsGo at h
    by_cases hd : startsWithDash u = true
    · rw [if_pos hd] at h
      by_cases hf : matchSafeFlag u.data = true
      · rw [if_pos hf] at h
        rcases List.mem_cons.mp ht with rfl | ht2
        · unfold checkToken; rw [if_pos hd]; exact hf
        · cases hrec : parsePartsGo rest with
          | error e => rw [hrec] at h; cases h
          | ok l => exact ih l hrec t ht2
      · rw [if_neg hf] at h; cases h
    · rw [if_neg hd] at h
      by_cases hb : (u.data.any fun c => tokenBadChars.contains c) = true
      · rw [if_pos hb] at h; cases h
      · rw [if_neg hb] at h
        rcases List.mem_cons.mp ht with rfl | ht2
        · unfold checkToken
          rw [if_neg hd]
          rw [Bool.not_eq_true] at hb
          rw [hb]
          rfl
        · cases hrec : parsePartsGo rest with
          | error e => rw [hrec] at h; cases h
          | ok l => exact ih l hrec t ht2

/-- An accepted token contains no metacharacter. -/
theorem checkToken_no_meta (t : String) (ht : checkToken t = true)
    (c : Char) (hc : c ∈ t.data) : c ∉ sevenMetachars := by
  intro hmeta
  unfold checkToken at ht
  by_cases hd : startsWithDash t = true
  · rw [if_pos hd] at ht
    have hok := matchSafeFlag_chars t.data ht c hc
    rw [sevenMetachars_not_flagCharOK c hmeta] at hok
    cases hok
  · rw [if_neg hd] at ht
    have hno : (t.data.any fun c => tokenBadChars.contains c) = false := by
      cases hq : (t.data.any fun c => tokenBadChars.contains c) with
      | false => rfl
      | true => rw [hq] at ht; simp at ht
    have hcontains : tokenBadChars.contains c = true := by
      have hmem := sevenMetachars_bad c hmeta
      exact List.elem_eq_true_of_mem hmem
    have : (t.data.any fun c => tokenBadChars.contains c) = true :=
      List.any_eq_true.mpr ⟨c, hc, hcontains⟩
    rw [hno] at this
    cases this

theorem parse_additional_args_rejects_meta :
    ∀ (raw : String) (c : Char), c ∈ sevenMetachars → c ∈ raw.data →
      resultOk (parse_additional_args raw) = false := by
  intro raw c hmeta hraw
  unfold parse_additional_args
  by_cases hemp : raw = ""
  · subst hemp; cases hraw
  · rw [if_neg hemp]
    cases hs : shlexSplit raw with
    | error e => rfl
    | ok parts =>
      have hord := sevenMetachars_ordinary c hmeta
      have hs' : shlexRun raw.data .normal [] false [] = .ok parts := hs
      have hkeep := shlexRun_keeps_ordinary c hord raw.data .normal [] false [] parts hs'
        (Or.inl hraw)
      obtain ⟨t, htparts, hct⟩ := hkeep
      cases hgo : parsePartsGo parts with
      | error e =>
          show resultOk (parsePartsGo parts) = false
          rw [hgo]
          rfl
      | ok safe =>
        have hchk := parsePartsGo_ok_checks parts safe hgo t htparts
        exact absurd hmeta (checkToken_no_meta t hchk c hct)

/-- C7 counterexample: the claim's clause "accepted strings yield only
tokens satisfying those shapes" fails by the same Python-`$` quirk as the
hostname regex: the additional-args string `'-T4\n'` (a quoted token with
a trailing newline, expressible in a JSON body) is accepted and yields the
token `-T4\n` — a dash token that does not match the narrow flag grammar
(`matchFlagCore`, dashes then word characters then an optional `=value`)
and is not made of dashes and word characters. -/
theorem C7_counterexample_trailing_newline_flag_token :
    parse_additional_args "'-T4\n'" = .ok ["-T4\n"] ∧
    startsWithDash "-T4\n" = true ∧
    matchFlagCore "-T4\n".data = false ∧
    ("-T4\n".data.all fun c => decide (c = '-') || isWordChar c) = false :=
  ⟨rfl, rfl, rfl, by decide⟩

/-- C7 (amended): the additional-args validator rejects every string
containing one of the shell metacharacters `; & | \x60 $ > <` (such a
character can never sit inside a token matching the flag pattern, so in
particular it rejects whenever one appears outside such a token), and
every accepted string yields only tokens satisfying the per-token rule:
a dash token matches the flag pattern under Python `.match` semantics —
the narrow flag grammar optionally followed by one trailing newline —
and any other token is free of the metacharacter class. -/
theorem C7_additional_args_rejects_metacharacters :
    (∀ (raw : String) (c : Char), c ∈ sevenMetachars → c ∈ raw.data →
      resultOk (parse_additional_args raw) = false) ∧
    (∀ raw toks, parse_additional_args raw = .ok toks →
      ∀ t ∈ toks, checkToken t = true) ∧
    (∀ t : String, checkToken t = true → startsWithDash t = true →
      matchFlagCore t.data = true ∨
        (t.data.getLast? = some '\n' ∧ matchFlagCore t.data.dropLast = true)) ∧
    (∀ (t : List Char) (c : Char), matchSafeFlag t = true → c ∈ t →
      c ∉ sevenMetachars) := by
  refine ⟨parse_additional_args_rejects_meta, ?_, ?_, ?_⟩
  · intro raw toks h t ht
    unfold parse_additional_args at h
    by_cases hemp : raw = ""
    · rw [if_pos hemp] at h
      cases h
      cases ht
    · rw [if_neg hemp] at h
      cases hs : shlexSplit raw with
      | error e => rw [hs] at h; cases h
      | ok parts =>
        rw [hs] at h
        have heq := parsePartsGo_ok_eq parts toks h
        exact parsePartsGo_ok_checks parts toks h t (heq ▸ ht)
  · intro t ht hd
    unfold checkToken at ht
    rw [if_pos hd] at ht
    unfold matchSafeFlag at ht
    rw [Bool.or_eq_true] at ht
    rcases ht with h | h
    · exact Or.inl h
    · rw [Bool.and_eq_true] at h
      exact Or.inr ⟨decide_eq_true_eq.mp h.1, h.2⟩
  · intro t c hflag hc hmeta
    have := matchSafeFlag_chars t hflag c hc
    rw [sevenMetachars_not_flagCharOK c hmeta] at this
    cases this

/-- C7 witness: the theorem applied to concrete inputs — a semicolon
outside any flag token causes rejection. -/
theorem C7_witness_semicolon_rejected :
    resultOk (parse_additional_args "-T4 ; rm -rf x") = false :=
  C7_additional_args_rejects_metacharacters.1 "-T4 ; rm -rf x" ';' (by decide) (by decide)

/-! ## C8 — the hostname-or-IP validator -/

/-- The regex `^[a-zA-Z0-9._-]{1,253}$` under Python `.match` accepts
exactly: 1–253 class characters spanning the whole string, or 1–253 class
characters followed by one trailing newline. -/
theorem HOSTNAME_REGEX_match_iff (s : String) :
    HOSTNAME_REGEX_match s = true ↔
      ((s.data ≠ [] ∧ s.data.length ≤ 253 ∧ ∀ c ∈ s.data, hostnameClassChar c = true) ∨
        (2 ≤ s.data.length ∧ s.data.length ≤ 254 ∧
          (∀ c ∈ s.data.dropLast, hostnameClassChar c = true) ∧
          s.data.getLast? = some '\n')) := by
  unfold HOSTNAME_REGEX_match
  rw [List.any_eq_true]
  constructor
  · rintro ⟨k, hk, hcond⟩
    rw [List.mem_range'_1] at hk
    obtain ⟨hk1, hk2⟩ := hk
    rw [Bool.and_eq_true, Bool.and_eq_true] at hcond
    obtain ⟨⟨hklen, hall⟩, hdollar⟩ := hcond
    rw [decide_eq_true_eq] at hklen
    unfold dollarAt at hdollar
    rw [Bool.or_eq_true, Bool.and_eq_true] at hdollar
    rcases hdollar with heq | ⟨heq, hlast⟩
    · rw [decide_eq_true_eq] at heq
      left
      refine ⟨?_, by omega, ?_⟩
      · intro hnil
        rw [hnil] at heq
        simp at heq
        omega
      · intro d hd
        have hd' : d ∈ s.data.take k := by
          rw [heq, List.take_length] at hall ⊢
          exact hd
        exact List.all_eq_true.mp hall d hd'
    · rw [decide_eq_true_eq] at heq hlast
      right
      refine ⟨by omega, by omega, ?_, hlast⟩
      intro d hd
      have hdl : s.data.dropLast = s.data.take k := by
        rw [List.dropLast_eq_take]
        congr 1
        omega
      rw [hdl] at hd
      exact List.all_eq_true.mp hall d hd
  · rintro (⟨hne, hlen, hall⟩ | ⟨h2, h254, hall, hlast⟩)
    · have hpos : 0 < s.data.length := List.length_pos.mpr hne
      refine ⟨s.data.length, ?_, ?_⟩
      · rw [List.mem_range'_1]
        omega
      · rw [Bool.and_eq_true, Bool.and_eq_true]
        refine ⟨⟨by simp, ?_⟩, ?_⟩
        · rw [List.take_length]
          exact List.all_eq_true.mpr hall
        · unfold dollarAt
          simp
    · refine ⟨s.data.length - 1, ?_, ?_⟩
      · rw [List.mem_range'_1]
        omega
      · rw [Bool.and_eq_true, Bool.and_eq_true]
        refine ⟨⟨by rw [decide_eq_true_eq]; omega, ?_⟩, ?_⟩
        · rw [← List.dropLast_eq_take]
          exact List.all_eq_true.mpr hall
        · unfold dollarAt
          rw [Bool.or_eq_true, Bool.and_eq_true]
          right
          refine ⟨by rw [decide_eq_true_eq]; omega, by simp [hlast]⟩

theorem validate_hostname_ok_iff (s f : String) :
    resultOk (validate_hostname_or_ip s f) = true ↔
      (is_valid_ip s = true ∨ HOSTNAME_REGEX_match s = true) := by
  unfold validate_hostname_or_ip
  by_cases hemp : s = ""
  · rw [if_pos hemp]
    subst hemp
    constructor
    · intro h; cases h
    · rintro (h | h) <;> cases h
  · rw [if_neg hemp]
    by_cases hip : is_valid_ip s = true
    · rw [if_pos hip]
      simp [resultOk, hip]
    · rw [if_neg hip]
      by_cases hre : HOSTNAME_REGEX_match s = true
      · rw [if_pos hre]
        simp [resultOk, hre]
      · rw [if_neg hre]
        simp [resultOk, hip, hre]

/-- C8 counterexample: the validator accepts `"a\n"` — Python's `$`
matches before the trailing newline — although `"a\n"` is neither a valid
IP literal nor a string of the claimed hostname grammar (alphanumerics,
dot, hyphen, underscore only), so acceptance is not exactly the claimed
set. -/
theorem C8_counterexample_trailing_newline_accepted :
    validate_hostname_or_ip "a\n" "target" = .ok "a\n" ∧
    is_valid_ip "a\n" = false ∧
    ("a\n".data.all hostnameClassChar) = false ∧
    "a\n".data.length ≤ 253 :=
  ⟨rfl, rfl, by decide, by decide⟩

/-- C8 (amended): the hostname-or-IP validator accepts exactly the
nonempty strings that parse as an IPv4/IPv6 literal, or consist of 1–253
characters from `[a-zA-Z0-9._-]`, or consist of 1–253 such characters
followed by one trailing newline (Python's `$` matching before a final
`'\n'`); the empty string is rejected. -/
theorem C8_amended_hostname_validator_characterisation :
    ∀ s f : String, resultOk (validate_hostname_or_ip s f) = true ↔
      (is_valid_ip s = true ∨
        (s.data ≠ [] ∧ s.data.length ≤ 253 ∧ ∀ c ∈ s.data, hostnameClassChar c = true) ∨
        (2 ≤ s.data.length ∧ s.data.length ≤ 254 ∧
          (∀ c ∈ s.data.dropLast, hostnameClassChar c = true) ∧
          s.data.getLast? = some '\n')) := by
  intro s f
  rw [validate_hostname_ok_iff, HOSTNAME_REGEX_match_iff]

/-- C8 witness: the amended characterisation applied at concrete inputs. -/
theorem C8_witness_concrete_hostname :
    resultOk (validate_hostname_or_ip "example.com" "target") = true ∧
    resultOk (validate_hostname_or_ip "10.0.0.5" "target") = true :=
  ⟨(C8_amended_hostname_validator_characterisation "example.com" "target").mpr
      (Or.inr (Or.inl ⟨by decide, by decide, by decide⟩)),
   (C8_amended_hostname_validator_characterisation "10.0.0.5" "target").mpr
      (Or.inl (by decide))⟩
